import Mathlib

/-!
Shallow embedding of the `ultira` rating system (src/lib.rs, src/main.rs).

Modelling conventions:
* Rust `f64` values are modelled as real numbers (`ℝ`); `f64::exp` is `Real.exp`.
  The one place the program relies on non-finite `f64` values — dividing a score
  by a zero `game_count` and the subsequent `is_finite` assertion in
  `rating_change` — is modelled by `Option ℝ`, where `none` stands for a
  non-finite (`NaN`/`±∞`) intermediate value.
* Rust panics (failed `assert!`, indexing a `HashMap` with a missing key,
  `unwrap()` on an error, `process::exit` on an empty undo) are modelled as
  `Except Err` failures, with the `Err` constructor named after the failure
  taxonomy of the specification.
* `HashMap<String, V>` is modelled as an association list `List (String × V)`
  whose order is the (fixed, per-value) iteration order of the concrete map.
* `nalgebra`'s numeric routines (`pseudo_inverse`, matrix `exp`) are external
  library code, not code of this repository; they are abstracted as the
  `LinAlg` parameter, so that both diffusion models can be seen to invoke the
  same `update_generic` formula on their respective matrices.
-/

namespace Ultira

noncomputable section

/-- Error taxonomy of the specification (§7); each constructor is the label of
a concrete failure point of the code: `MissingPlayer` for indexing the ratings
map with an absent key, `DegenerateGroupSize` for the `assert!(len >= 3)` in
the Symmetric branch, `AssertNotFinite` for the `assert!(is_finite)` in
`rating_change`, `SingularSystem` for `update_generic(..).unwrap()` failing,
`EmptyHistory` for undo on an empty history.  `InvalidInput` (pre-validation
of a zero game count) appears in the taxonomy but at no failure point of the
code. -/
inductive Err where
  | MissingPlayer
  | DegenerateGroupSize
  | AssertNotFinite
  | SingularSystem
  | EmptyHistory
  | InvalidInput
  deriving DecidableEq, Repr

/-- `pub fn update3` (src/lib.rs:20-22):
`(rating - avg_rating - avg_score) * f64::exp(-α * games) + avg_rating + avg_score`. -/
def update3 (α games rating avg_rating avg_score : ℝ) : ℝ :=
  (rating - avg_rating - avg_score) * Real.exp (-α * games) + avg_rating + avg_score

/-- `pub fn update_n` (src/lib.rs:24-35). -/
def update_n (α games rating avg_rating total_score player_count : ℝ) : ℝ :=
  let offset := avg_rating + 3 / player_count / (player_count - 2) * total_score
  (rating - offset) * Real.exp (-player_count * (player_count - 2) / 3 * α * games) + offset

/-- Division of an `i64` score by a `usize` game count, both cast to `f64`
(src/lib.rs:77).  A zero divisor yields a non-finite value, modelled `none`. -/
def fdiv (z : ℤ) (g : ℕ) : Option ℝ :=
  if g = 0 then none else some ((z : ℝ) / (g : ℕ))

/-- `assert!(x.is_finite())` (src/lib.rs:81): panics (modelled as the
`AssertNotFinite` failure) when the value is non-finite. -/
def assertFinite : Option ℝ → Except Err ℝ
  | some r => .ok r
  | none => .error .AssertNotFinite

/-- `ratings.iter().sum::<f64>() / 3.0` (src/lib.rs:70). -/
def avg3 (r : Fin 3 → ℝ) : ℝ := (r 0 + r 1 + r 2) / 3

/-- `pub fn rating_change` (src/lib.rs:69-85): per-participant average score
`scores[i] / games`, then `update3`, then the finiteness assertion.  The only
source of a non-finite intermediate value (given finite inputs) is the
division by a zero `games`, and a non-finite average score propagates to a
non-finite `update3` result, so the assertion is modelled on the composed
value. -/
def rating_change (α : ℝ) (games : ℕ) (ratings : Fin 3 → ℝ) (scores : Fin 3 → ℤ) :
    Except Err (Fin 3 → ℝ) := do
  let new : Fin 3 → Option ℝ :=
    fun i => (fdiv (scores i) games).map (update3 α (games : ℕ) (ratings i) (avg3 ratings))
  let n0 ← assertFinite (new 0)
  let n1 ← assertFinite (new 1)
  let n2 ← assertFinite (new 2)
  .ok ![n0, n1, n2]

/-- `pub struct Config` (src/lib.rs:174-207) with its display transforms. -/
structure Config where
  spread : ℝ
  base_rating : ℝ
  starting_alpha : ℝ

/-- `Config::default` (src/lib.rs:181-189). -/
def Config.default : Config := ⟨50, 100, 0.02⟩

/-- `Config::rating_from_display` (src/lib.rs:192). -/
def Config.rating_from_display (c : Config) (display : ℝ) : ℝ :=
  (display - c.base_rating) / c.spread

/-- `Config::rating_to_display` (src/lib.rs:196). -/
def Config.rating_to_display (c : Config) (rating : ℝ) : ℝ :=
  rating * c.spread + c.base_rating

/-- `pub struct AddPlayer` (src/lib.rs:234-238); dates are modelled as `ℤ`. -/
structure AddPlayer where
  name : String
  rating : ℝ

/-- `pub struct Outcome` (src/lib.rs:265-269). -/
structure Outcome where
  player : String
  score : ℤ
  deriving DecidableEq

/-- `pub struct Play` (src/lib.rs:240-253); `chrono::NaiveDate` modelled `ℤ`. -/
structure Play where
  game_count : ℕ
  date : ℤ
  outcomes : Fin 3 → Outcome

/-- `pub struct GameCollection` (src/lib.rs:287-291). -/
structure GameCollection where
  players : String × String
  game_count : ℕ

/-- `pub struct Arbitrary` (src/lib.rs:279-285); the `HashMap` of scores is an
association list in the map's iteration order. -/
structure Arbitrary where
  date : ℤ
  scores : List (String × ℤ)
  game_collections : List GameCollection

/-- `pub struct Circular` (src/lib.rs:293-299). -/
structure Circular where
  date : ℤ
  outcomes : List Outcome
  game_count : ℕ

/-- `pub struct Symmetric` (src/lib.rs:301-307). -/
structure Symmetric where
  date : ℤ
  scores : List (String × ℤ)
  round_count : ℕ

/-- `pub enum Change` (src/lib.rs:209-219). -/
inductive Change where
  | AddPlayer (a : AddPlayer)
  | Play (p : Play)
  | Arbitrary (a : Arbitrary)
  | Circular (c : Circular)
  | Symmetric (s : Symmetric)
  | AdjustAlpha (a : ℝ)

/-- `Change::date` (src/lib.rs:221-232). -/
def Change.date : Change → Option ℤ
  | .AddPlayer _ => none
  | .Play p => some p.date
  | .Arbitrary a => some a.date
  | .Circular c => some c.date
  | .Symmetric s => some s.date
  | .AdjustAlpha _ => none

/-- `HashMap` lookup `map[key]` / `map.get(key)` on the association-list model. -/
def lookupR : List (String × ℝ) → String → Option ℝ
  | [], _ => none
  | (k, v) :: rest, key => if k = key then some v else lookupR rest key

/-- `HashMap::insert` (overwrite an existing key, else add the entry). -/
def insertR : List (String × ℝ) → String → ℝ → List (String × ℝ)
  | [], key, v => [(key, v)]
  | (k, w) :: rest, key, v =>
    if k = key then (key, v) :: rest else (k, w) :: insertR rest key v

/-- `*map.get_mut(key).unwrap() = v`: overwrite the value at an existing key;
never inserts (every call site has already looked the key up). -/
def setR : List (String × ℝ) → String → ℝ → List (String × ℝ)
  | [], _, _ => []
  | (k, w) :: rest, key, v =>
    if k = key then (k, v) :: setR rest key v else (k, w) :: setR rest key v

/-- Lift a `HashMap` index (which panics on a missing key) to `Except`. -/
def liftE (o : Option ℝ) : Except Err ℝ :=
  match o with
  | some r => .ok r
  | none => .error .MissingPlayer

/-- Look up the ratings of a list of player names, failing on the first
missing one (the panic of `self.ratings[player]`). -/
def liftLookups (ratings : List (String × ℝ)) : List String → Except Err (List ℝ)
  | [] => .ok []
  | nm :: rest => do
    let r ← liftE (lookupR ratings nm)
    let rs ← liftLookups ratings rest
    .ok (r :: rs)

/-- `pub struct Evaluation` (src/lib.rs:309-314). -/
structure Evaluation where
  α : ℝ
  ratings : List (String × ℝ)
  last_date : Option ℤ

/-- `Evaluation::new` (src/lib.rs:317-322). -/
def Evaluation.new (α : ℝ) : Evaluation := ⟨α, [], none⟩

/-- Rust `Option<NaiveDate>` max: `None` is smaller than any `Some`
(src/lib.rs:396). -/
def dmax : Option ℤ → Option ℤ → Option ℤ
  | none, b => b
  | some x, none => some x
  | some x, some y => some (max x y)

/-- Abstraction of the `nalgebra` numeric routines used by `update_generic`:
`pseudo_inverse` (with its tolerance, possibly failing) and the matrix
exponential.  An `n × n` matrix is a function `ℕ → ℕ → ℝ` (entries outside
`n × n` irrelevant), a vector a function `ℕ → ℝ`. -/
structure LinAlg where
  pinv : ℕ → (ℕ → ℕ → ℝ) → ℝ → Option (ℕ → ℕ → ℝ)
  matExp : ℕ → (ℕ → ℕ → ℝ) → (ℕ → ℕ → ℝ)

/-- Matrix–vector multiplication for size-`n` data. -/
def matVecMul (n : ℕ) (m : ℕ → ℕ → ℝ) (v : ℕ → ℝ) : ℕ → ℝ :=
  fun i => ∑ j ∈ Finset.range n, m i j * v j

/-- `pub fn update_generic` (src/lib.rs:37-47):
`steady_state = -3 * pseudo_inverse(L, eps) * scores` and
`exp(L * α / 3) * (starting_ratings - steady_state) + steady_state`. -/
def update_generic (lin : LinAlg) (α : ℝ) (n : ℕ) (laplace_matrix : ℕ → ℕ → ℝ)
    (starting_ratings scores : ℕ → ℝ) (eps : ℝ) : Option (ℕ → ℝ) :=
  (lin.pinv n laplace_matrix eps).map fun pinvM =>
    let steady_state : ℕ → ℝ := fun i => -3 * matVecMul n pinvM scores i
    fun i =>
      matVecMul n (lin.matExp n fun a b => laplace_matrix a b * α / 3)
        (fun j => starting_ratings j - steady_state j) i + steady_state i

/-- `matrix[(j0, j1)] += w` on the functional matrix model. -/
def bumpAdd (m : ℕ → ℕ → ℝ) (j0 j1 : ℕ) (w : ℝ) : ℕ → ℕ → ℝ :=
  fun a b => if a = j0 ∧ b = j1 then m a b + w else m a b

/-- Inner double loop of the Circular matrix synthesis (src/lib.rs:459-467):
for one value of `i`, bump every `(j0, j1)` with `j0 = (i+d0) % n`,
`j1 = (i+d1) % n`, `d0, d1 ∈ {0,1,2}`, by `-2` on the diagonal and `+1` off
it. -/
def applyWindow (n i : ℕ) (m : ℕ → ℕ → ℝ) : ℕ → ℕ → ℝ :=
  (List.range 3).foldl
    (fun m d0 =>
      (List.range 3).foldl
        (fun m d1 =>
          bumpAdd m ((i + d0) % n) ((i + d1) % n)
            (if (i + d0) % n = (i + d1) % n then -2 else 1))
        m)
    m

/-- Matrix synthesized by `Evaluation::apply_circular_outcomes`
(src/lib.rs:454-471): the outer loop runs `i` over `0..game_count`. -/
def circularMatrix (n game_count : ℕ) : ℕ → ℕ → ℝ :=
  (List.range game_count).foldl (fun m i => applyWindow n i m) (fun _ _ => 0)

/-- Total contribution of the single width-3 window starting at position `i`
to entry `(a, b)`: the closed form of one `applyWindow` pass. -/
def windowContrib (n i a b : ℕ) : ℝ :=
  ∑ d0 ∈ Finset.range 3, ∑ d1 ∈ Finset.range 3,
    if a = (i + d0) % n ∧ b = (i + d1) % n then
      (if (i + d0) % n = (i + d1) % n then (-2 : ℝ) else 1)
    else 0

/-- Modelled from the spec's words (§4.3, Circular diffusion), for comparison
with `circularMatrix`: "for each of `game_count` implicit rounds, every group
of three cyclically-consecutive participants (a sliding window of width 3,
wrapping) contributes pairwise adjacency (+1) and self-diagonal (-2) terms
..., accumulated over all `game_count` rounds and all window positions". -/
def specCircularMatrix (n game_count : ℕ) : ℕ → ℕ → ℝ :=
  fun a b =>
    ∑ _round ∈ Finset.range game_count, ∑ start ∈ Finset.range n,
      windowContrib n start a b

/-- Matrix built by `Evaluation::apply_arbtrarity_outcomes` (src/lib.rs:414-429)
from the game collections; indexing a player absent from the score map is the
panic of `player_to_index[..]`, modelled `MissingPlayer`. -/
def arbMatrix (players : List String) : List GameCollection → Except Err (ℕ → ℕ → ℝ) :=
  let idx := fun nm : String => List.findIdx? (fun q => q = nm) players
  fun gcs =>
    gcs.foldlM
      (fun m gc => do
        let i0 ← match idx gc.players.1 with
          | some i => Except.ok i
          | none => Except.error Err.MissingPlayer
        let i1 ← match idx gc.players.2 with
          | some i => Except.ok i
          | none => Except.error Err.MissingPlayer
        let g : ℝ := gc.game_count
        Except.ok
          (bumpAdd (bumpAdd (bumpAdd (bumpAdd m i0 i1 g) i1 i0 g) i0 i0 (-g)) i1 i1 (-g)))
      (fun _ _ => 0)

/-- Write-back loop `*self.ratings.get_mut(&players[i]).unwrap() = new_ratings[i]`,
starting at vector index `k`. -/
def writeRatingsFrom (ratings : List (String × ℝ)) (names : List String)
    (nr : ℕ → ℝ) (k : ℕ) : List (String × ℝ) :=
  match names with
  | [] => ratings
  | nm :: rest => writeRatingsFrom (setR ratings nm (nr k)) rest nr (k + 1)

/-- Numerical tolerance `1e-6` passed to the pseudo-inverse (src/lib.rs:438,478). -/
def epsTol : ℝ := 1e-6

/-- `Evaluation::apply_arbtrarity_outcomes` (src/lib.rs:399-443). -/
def applyArbitrary (lin : LinAlg) (ev : Evaluation) (a : Arbitrary) :
    Except Err Evaluation := do
  let players := a.scores.map Prod.fst
  let init ← liftLookups ev.ratings players
  let m ← arbMatrix players a.game_collections
  let scores : ℕ → ℝ := fun k => ((a.scores.getD k ("", 0)).2 : ℤ)
  match update_generic lin ev.α players.length m (fun k => init.getD k 0) scores epsTol with
  | none => .error .SingularSystem
  | some nr => .ok { ev with ratings := writeRatingsFrom ev.ratings players nr 0 }

/-- `Evaluation::apply_circular_outcomes` (src/lib.rs:445-483). -/
def applyCircular (lin : LinAlg) (ev : Evaluation) (c : Circular) :
    Except Err Evaluation := do
  let players := c.outcomes.map Outcome.player
  let init ← liftLookups ev.ratings players
  let n := c.outcomes.length
  let m := circularMatrix n c.game_count
  let scores : ℕ → ℝ := fun k => ((c.outcomes.getD k ⟨"", 0⟩).score : ℤ)
  match update_generic lin ev.α n m (fun k => init.getD k 0) scores epsTol with
  | none => .error .SingularSystem
  | some nr => .ok { ev with ratings := writeRatingsFrom ev.ratings players nr 0 }

/-- Symmetric branch of `Evaluation::change` (src/lib.rs:360-391): the
`assert!(scores.len() >= 3)` first, then the rating sum, then `update_n` per
participant, then the write-back. -/
def applySymmetric (ev : Evaluation) (s : Symmetric) : Except Err Evaluation :=
  if s.scores.length < 3 then .error .DegenerateGroupSize
  else do
    let rs ← liftLookups ev.ratings (s.scores.map Prod.fst)
    -- `average_rating = rating_sum / scores.len()`, inlined at its one use
    let news ← s.scores.mapM fun q => do
      let r ← liftE (lookupR ev.ratings q.1)
      Except.ok (q.1,
        update_n ev.α (s.round_count : ℕ) r (rs.sum / (s.scores.length : ℕ))
          (q.2 : ℤ) (s.scores.length : ℕ))
    Except.ok { ev with
      ratings := news.foldl (fun acc q => setR acc q.1 q.2) ev.ratings }

/-- `Evaluation::change` (src/lib.rs:336-397): dispatch on the `Change`
variant, then `last_date = last_date.max(change.date())`. -/
def Evaluation.changeE (lin : LinAlg) (ev : Evaluation) (c : Change) :
    Except Err Evaluation := do
  let ev' ← match c with
    | .AddPlayer a =>
      Except.ok { ev with ratings := insertR ev.ratings a.name a.rating }
    | .Play p => do
      let r0 ← liftE (lookupR ev.ratings (p.outcomes 0).player)
      let r1 ← liftE (lookupR ev.ratings (p.outcomes 1).player)
      let r2 ← liftE (lookupR ev.ratings (p.outcomes 2).player)
      let nr ← rating_change ev.α p.game_count ![r0, r1, r2] fun i => (p.outcomes i).score
      Except.ok { ev with
        ratings :=
          setR (setR (setR ev.ratings (p.outcomes 0).player (nr 0))
            (p.outcomes 1).player (nr 1)) (p.outcomes 2).player (nr 2),
        last_date := some (match ev.last_date with
          | none => p.date
          | some last_date => max p.date last_date) }
    | .Arbitrary a => applyArbitrary lin ev a
    | .Circular cc => applyCircular lin ev cc
    | .Symmetric s => applySymmetric ev s
    | .AdjustAlpha a => Except.ok { ev with α := a }
  Except.ok { ev' with last_date := dmax ev'.last_date c.date }

/-- `Data::evaluate` (src/lib.rs:103-111) generalized over the starting
coefficient: fold the history from `Evaluation::new`. -/
def evaluateH (lin : LinAlg) (starting_alpha : ℝ) (history : List Change) :
    Except Err Evaluation :=
  history.foldlM (Evaluation.changeE lin) (Evaluation.new starting_alpha)

/-- `pub struct Data` (src/lib.rs:92-96). -/
structure Data where
  config : Config
  history : List Change

/-- `Data::evaluate` (src/lib.rs:103-111). -/
def Data.evaluate (lin : LinAlg) (d : Data) : Except Err Evaluation :=
  evaluateH lin d.config.starting_alpha d.history

/-- `fn undo` (src/main.rs:565-589), restricted to its effect on the history:
`history.last()` must exist (else the empty-history failure), then
`history.pop()` removes the last element. -/
def undoH (h : List Change) : Except Err (List Change) :=
  match h.getLast? with
  | none => .error .EmptyHistory
  | some _ => .ok h.dropLast

/-- A concrete `LinAlg` instance for witnesses (its routines are never reached
by histories without diffusion events). -/
def trivLin : LinAlg := ⟨fun _ _ _ => none, fun _ m => m⟩

/-- Modelled from the spec's words, for comparison with `rating_change`
(claim about §4.3, three-participant zero-sum decay):
`new_r_i = (1-α)^g * r_i + (r̄ + s_i) * (1 - (1-α)^g)` with `s_i = score_i / g`. -/
def specRatingChange (α : ℝ) (g : ℕ) (ratings : Fin 3 → ℝ) (scores : Fin 3 → ℤ) :
    Fin 3 → ℝ :=
  fun i =>
    (1 - α) ^ g * ratings i + (avg3 ratings + (scores i : ℤ) / (g : ℕ)) * (1 - (1 - α) ^ g)

/-- History of the spec's concrete scenario (§8): three players at internal
rating 0, then one `Play` with `game_count = 1` and scores `(+4, -2, -2)`. -/
def histC2 : List Change :=
  [.AddPlayer ⟨"A", 0⟩, .AddPlayer ⟨"B", 0⟩, .AddPlayer ⟨"C", 0⟩,
   .Play ⟨1, 0, ![⟨"A", 4⟩, ⟨"B", -2⟩, ⟨"C", -2⟩]⟩]

/-- Concrete four-player evaluation used in witnesses. -/
def evCirc : Evaluation := ⟨1, [("A", 0), ("B", 0), ("C", 0), ("D", 0)], none⟩

/-- Concrete four-player Circular event used in witnesses. -/
def circEx : Circular := ⟨0, [⟨"A", 1⟩, ⟨"B", 2⟩, ⟨"C", -3⟩, ⟨"D", 0⟩], 1⟩

/-! ### Helper lemmas -/

-- For a positive game count every per-participant average score is finite, the
-- assertion passes, and `rating_change` returns the three `update3` values.
theorem rating_change_eq (α : ℝ) (g : ℕ) (hg : g ≠ 0) (r : Fin 3 → ℝ) (s : Fin 3 → ℤ) :
    rating_change α g r s =
      Except.ok ![update3 α g (r 0) (avg3 r) ((s 0 : ℤ) / (g : ℕ)),
        update3 α g (r 1) (avg3 r) ((s 1 : ℤ) / (g : ℕ)),
        update3 α g (r 2) (avg3 r) ((s 2 : ℤ) / (g : ℕ))] := by
  simp [rating_change, fdiv, hg, assertFinite, Bind.bind, Except.bind]

-- With a zero game count the divisions are non-finite, so the finiteness
-- assertion fails.
theorem rating_change_zero (α : ℝ) (r : Fin 3 → ℝ) (s : Fin 3 → ℤ) :
    rating_change α 0 r s = Except.error Err.AssertNotFinite := by
  simp [rating_change, fdiv, assertFinite, Bind.bind, Except.bind]

theorem lookupR_setR_ne (l : List (String × ℝ)) (k : String) (v : ℝ) (k' : String)
    (h : k' ≠ k) : lookupR (setR l k v) k' = lookupR l k' := by
  induction l with
  | nil => rfl
  | cons e rest ih =>
    obtain ⟨ek, ev⟩ := e
    by_cases hek : ek = k
    · subst hek
      simp [setR, lookupR, Ne.symm h, ih]
    · simp [setR, lookupR, hek, ih]

theorem isSome_lookupR_setR (l : List (String × ℝ)) (k : String) (v : ℝ) (k' : String) :
    (lookupR (setR l k v) k').isSome = (lookupR l k').isSome := by
  induction l with
  | nil => rfl
  | cons e rest ih =>
    obtain ⟨ek, ev⟩ := e
    by_cases hek : ek = k
    · subst hek
      by_cases hk' : ek = k' <;> simp [setR, lookupR, hk', ih]
    · by_cases hk' : ek = k'
      · subst hk'
        simp [setR, lookupR, hek, ih]
      · simp [setR, lookupR, hek, hk', ih]

theorem liftLookups_ok (r : List (String × ℝ)) (names : List String)
    (h : ∀ nm ∈ names, (lookupR r nm).isSome) :
    ∃ vs, liftLookups r names = Except.ok vs := by
  induction names with
  | nil => exact ⟨[], rfl⟩
  | cons nm rest ih =>
    obtain ⟨v, hv⟩ := Option.isSome_iff_exists.mp (h nm (by simp))
    obtain ⟨vs, hvs⟩ := ih fun x hx => h x (by simp [hx])
    exact ⟨v :: vs, by simp [liftLookups, hv, liftE, hvs, Bind.bind, Except.bind]⟩

theorem bumpAdd_apply (m : ℕ → ℕ → ℝ) (j0 j1 : ℕ) (w : ℝ) (a b : ℕ) :
    bumpAdd m j0 j1 w a b = m a b + (if a = j0 ∧ b = j1 then w else 0) := by
  by_cases h : a = j0 ∧ b = j1 <;> simp [bumpAdd, h]

-- One pass of the inner double loop adds exactly the window contribution.
theorem applyWindow_apply (n i : ℕ) (m : ℕ → ℕ → ℝ) (a b : ℕ) :
    applyWindow n i m a b = m a b + windowContrib n i a b := by
  simp only [applyWindow, windowContrib, List.range_succ, List.range_zero,
    List.nil_append, List.cons_append, List.foldl_cons, List.foldl_nil,
    Finset.sum_range_succ, Finset.sum_range_zero, bumpAdd_apply]
  ring

-- The synthesized Circular matrix is the sum, over the rounds `i < g`, of the
-- single width-3 window starting at position `i`.
theorem circularMatrix_apply (n g a b : ℕ) :
    circularMatrix n g a b = ∑ i ∈ Finset.range g, windowContrib n i a b := by
  induction g with
  | zero => simp [circularMatrix]
  | succ g ih =>
    have : circularMatrix n (g + 1) = applyWindow n g (circularMatrix n g) := by
      simp [circularMatrix, List.range_succ]
    rw [this, applyWindow_apply, ih, Finset.sum_range_succ]

-- Definitional reductions of the `Except` monad operations, used to evaluate
-- `do`-blocks without unfolding lambdas.
theorem except_bind_ok {β γ : Type} (v : β) (k : β → Except Err γ) :
    (Except.ok v >>= k : Except Err γ) = k v := rfl

theorem except_pure {β : Type} (v : β) : (pure v : Except Err β) = Except.ok v := rfl

theorem liftE_some (r : ℝ) : liftE (some r) = Except.ok r := rfl

-- A `mapM` whose body looks a player up and postprocesses succeeds when every
-- player is present.
theorem mapM_news_ok (R : List (String × ℝ)) (G : String × ℤ → ℝ → String × ℝ)
    (l : List (String × ℤ)) (h : ∀ q ∈ l, (lookupR R q.1).isSome) :
    ∃ out, (l.mapM fun q => do
        let r ← liftE (lookupR R q.1)
        Except.ok (G q r) : Except Err (List (String × ℝ))) = Except.ok out := by
  induction l with
  | nil => exact ⟨[], rfl⟩
  | cons q rest ih =>
    obtain ⟨v, hv⟩ := Option.isSome_iff_exists.mp (h q (by simp))
    obtain ⟨out, hout⟩ := ih fun x hx => h x (by simp [hx])
    refine ⟨G q v :: out, ?_⟩
    rw [List.mapM_cons]
    simp only [hv, liftE_some, except_bind_ok, hout, except_pure]

-- The Symmetric branch succeeds when the group has at least three members and
-- all of them are rated.
theorem applySymmetric_ok (ev : Evaluation) (s : Symmetric)
    (hlen : 3 ≤ s.scores.length)
    (hnames : ∀ q ∈ s.scores, (lookupR ev.ratings q.1).isSome) :
    ∃ x, applySymmetric ev s = Except.ok x := by
  have hnot : ¬ s.scores.length < 3 := by omega
  obtain ⟨vs, hvs⟩ := liftLookups_ok ev.ratings (s.scores.map Prod.fst) (by
    intro nm hnm
    obtain ⟨q, hq, rfl⟩ := List.mem_map.mp hnm
    exact hnames q hq)
  obtain ⟨out, hout⟩ := mapM_news_ok ev.ratings
    (fun q r => (q.1, update_n ev.α (s.round_count : ℕ) r
      (vs.sum / (s.scores.length : ℕ)) (q.2 : ℤ) (s.scores.length : ℕ)))
    s.scores hnames
  refine ⟨{ ev with ratings := out.foldl (fun acc q => setR acc q.1 q.2) ev.ratings }, ?_⟩
  unfold applySymmetric
  rw [if_neg hnot]
  simp only [hvs, except_bind_ok, hout]

-- The date bookkeeping wrapper of `Evaluation::change` on a successful
-- Symmetric branch.
theorem changeE_symmetric_ok (lin : LinAlg) (ev x : Evaluation) (s : Symmetric)
    (h : applySymmetric ev s = Except.ok x) :
    Evaluation.changeE lin ev (.Symmetric s) =
      Except.ok { x with last_date := dmax x.last_date (some s.date) } := by
  simp [Evaluation.changeE, h, Change.date, Bind.bind, Except.bind]

/-! ### Claim theorems -/

/-- C9: the symmetric group update specialized to `player_count = 3` computes,
in exact real arithmetic, the same value as the three-participant update:
`update_n α g r r̄ s 3 = update3 α g r r̄ s`. -/
theorem update_n_three_refines_update3 (α games rating avg_rating s : ℝ) :
    update_n α games rating avg_rating s 3 = update3 α games rating avg_rating s := by
  simp only [update_n, update3]
  have h3 : (-3 : ℝ) * (3 - 2) / 3 * α * games = -α * games := by ring
  rw [h3]
  have hoff : avg_rating + 3 / (3 : ℝ) / (3 - 2) * s = avg_rating + s := by ring
  rw [hoff]
  ring

/-- C3: `evaluate` is a pure fold with no hidden state — two applications to
the same history and starting coefficient give bit-identical results (the same
`Except Err Evaluation` value: same `α`, same ratings entries, same
`last_date`). -/
theorem evaluate_deterministic (lin : LinAlg) (a : ℝ) (history : List Change) :
    evaluateH lin a history = evaluateH lin a history := rfl

/-- C8: appending a change and undoing returns the history unchanged (hence an
identical Evaluation), and undo on the empty history fails with
`EmptyHistory`. -/
theorem undo_inverse (lin : LinAlg) (a : ℝ) (h : List Change) (c : Change) :
    undoH (h ++ [c]) = Except.ok h ∧
      Except.map (evaluateH lin a) (undoH (h ++ [c])) = Except.ok (evaluateH lin a h) ∧
      undoH ([] : List Change) = Except.error Err.EmptyHistory := by
  have h1 : undoH (h ++ [c]) = Except.ok h := by
    simp [undoH, List.getLast?_concat, List.dropLast_concat]
  exact ⟨h1, by rw [h1]; rfl, rfl⟩

/-- C1 (counterexample): the three-participant update does not compute the
spec's convex blend with weight `(1-α)^g`: at `α = 1`, `g = 1`,
ratings `(1,0,0)`, scores `(0,0,0)`, the spec blend puts player 0 exactly at
`r̄ = 1/3`, while the code returns `(2/3)·exp(-1) + 1/3`. -/
theorem rating_change_ne_spec_blend :
    rating_change 1 1 ![1, 0, 0] ![0, 0, 0] ≠
      Except.ok (specRatingChange 1 1 ![1, 0, 0] ![0, 0, 0]) := by
  intro h
  rw [rating_change_eq 1 1 one_ne_zero] at h
  have h0 := congrFun (Except.ok.inj h) 0
  simp [update3, avg3, specRatingChange] at h0
  have hp := Real.exp_pos (-(1 : ℝ) * 1)
  nlinarith [hp]

/-- C1 (amended): for every Play update with `g ≥ 1` the update is the convex
blend `new_r_i = exp(-αg) * r_i + (r̄ + s_i) * (1 - exp(-αg))` with
`s_i = score_i / g` — geometric decay with per-game factor `exp(-α)`, not
`(1-α)`. -/
theorem rating_change_blend (α : ℝ) (g : ℕ) (r : Fin 3 → ℝ) (s : Fin 3 → ℤ)
    (hg : 1 ≤ g) :
    rating_change α g r s =
      Except.ok (fun i =>
        Real.exp (-α * g) * r i +
          (avg3 r + (s i : ℤ) / (g : ℕ)) * (1 - Real.exp (-α * g))) := by
  rw [rating_change_eq α g (by omega) r s]
  congr 1
  funext i
  fin_cases i <;> simp [update3] <;> ring

/-- C1 witness: the amended blend formula at `α = 1`, `g = 1`. -/
theorem rating_change_blend_witness :
    rating_change 1 1 ![1, 0, 0] ![0, 0, 0] =
      Except.ok (fun i =>
        Real.exp (-1 * (1 : ℕ)) * (![1, 0, 0] i) +
          (avg3 ![1, 0, 0] + ((![0, 0, 0] i : ℤ) : ℝ) / ((1 : ℕ) : ℝ)) *
            (1 - Real.exp (-1 * (1 : ℕ)))) :=
  rating_change_blend 1 1 ![1, 0, 0] ![0, 0, 0] (by norm_num)

/-- C4: when the three scores sum to zero, the Play update conserves the sum
of the three ratings, for every `α ∈ (0,1)` and `g ≥ 1`. -/
theorem play_zero_sum (α : ℝ) (g : ℕ) (r : Fin 3 → ℝ) (s : Fin 3 → ℤ)
    (hα0 : 0 < α) (hα1 : α < 1) (hg : 1 ≤ g) (hs : s 0 + s 1 + s 2 = 0)
    (nr : Fin 3 → ℝ) (hnr : rating_change α g r s = Except.ok nr) :
    nr 0 + nr 1 + nr 2 = r 0 + r 1 + r 2 := by
  rw [rating_change_eq α g (by omega) r s] at hnr
  have hv := Except.ok.inj hnr
  have h0 := congrFun hv 0
  have h1 := congrFun hv 1
  have h2 := congrFun hv 2
  simp at h0 h1 h2
  rw [← h0, ← h1, ← h2]
  have hS : ((s 0 : ℝ) + (s 1 : ℝ) + (s 2 : ℝ)) = 0 := by exact_mod_cast hs
  simp only [update3, avg3]
  linear_combination ((1 - Real.exp (-α * (g : ℕ))) / (g : ℕ)) * hS

/-- C4 witness: zero-sum conservation at `α = 1/2`, `g = 1`, ratings `(1,2,3)`,
scores `(4,-2,-2)`. -/
theorem play_zero_sum_witness :
    rating_change (1/2) 1 ![1, 2, 3] ![4, -2, -2] =
      Except.ok ![update3 (1/2) ((1 : ℕ) : ℝ) ((![1, 2, 3] : Fin 3 → ℝ) 0)
          (avg3 ![1, 2, 3]) (((![4, -2, -2] : Fin 3 → ℤ) 0 : ℝ) / ((1 : ℕ) : ℝ)),
        update3 (1/2) ((1 : ℕ) : ℝ) ((![1, 2, 3] : Fin 3 → ℝ) 1)
          (avg3 ![1, 2, 3]) (((![4, -2, -2] : Fin 3 → ℤ) 1 : ℝ) / ((1 : ℕ) : ℝ)),
        update3 (1/2) ((1 : ℕ) : ℝ) ((![1, 2, 3] : Fin 3 → ℝ) 2)
          (avg3 ![1, 2, 3]) (((![4, -2, -2] : Fin 3 → ℤ) 2 : ℝ) / ((1 : ℕ) : ℝ))] ∧
    (![update3 (1/2) ((1 : ℕ) : ℝ) ((![1, 2, 3] : Fin 3 → ℝ) 0)
          (avg3 ![1, 2, 3]) (((![4, -2, -2] : Fin 3 → ℤ) 0 : ℝ) / ((1 : ℕ) : ℝ)),
        update3 (1/2) ((1 : ℕ) : ℝ) ((![1, 2, 3] : Fin 3 → ℝ) 1)
          (avg3 ![1, 2, 3]) (((![4, -2, -2] : Fin 3 → ℤ) 1 : ℝ) / ((1 : ℕ) : ℝ)),
        update3 (1/2) ((1 : ℕ) : ℝ) ((![1, 2, 3] : Fin 3 → ℝ) 2)
          (avg3 ![1, 2, 3]) (((![4, -2, -2] : Fin 3 → ℤ) 2 : ℝ) / ((1 : ℕ) : ℝ))] :
        Fin 3 → ℝ) 0 +
      (![update3 (1/2) ((1 : ℕ) : ℝ) ((![1, 2, 3] : Fin 3 → ℝ) 0)
          (avg3 ![1, 2, 3]) (((![4, -2, -2] : Fin 3 → ℤ) 0 : ℝ) / ((1 : ℕ) : ℝ)),
        update3 (1/2) ((1 : ℕ) : ℝ) ((![1, 2, 3] : Fin 3 → ℝ) 1)
          (avg3 ![1, 2, 3]) (((![4, -2, -2] : Fin 3 → ℤ) 1 : ℝ) / ((1 : ℕ) : ℝ)),
        update3 (1/2) ((1 : ℕ) : ℝ) ((![1, 2, 3] : Fin 3 → ℝ) 2)
          (avg3 ![1, 2, 3]) (((![4, -2, -2] : Fin 3 → ℤ) 2 : ℝ) / ((1 : ℕ) : ℝ))] :
        Fin 3 → ℝ) 1 +
      (![update3 (1/2) ((1 : ℕ) : ℝ) ((![1, 2, 3] : Fin 3 → ℝ) 0)
          (avg3 ![1, 2, 3]) (((![4, -2, -2] : Fin 3 → ℤ) 0 : ℝ) / ((1 : ℕ) : ℝ)),
        update3 (1/2) ((1 : ℕ) : ℝ) ((![1, 2, 3] : Fin 3 → ℝ) 1)
          (avg3 ![1, 2, 3]) (((![4, -2, -2] : Fin 3 → ℤ) 1 : ℝ) / ((1 : ℕ) : ℝ)),
        update3 (1/2) ((1 : ℕ) : ℝ) ((![1, 2, 3] : Fin 3 → ℝ) 2)
          (avg3 ![1, 2, 3]) (((![4, -2, -2] : Fin 3 → ℤ) 2 : ℝ) / ((1 : ℕ) : ℝ))] :
        Fin 3 → ℝ) 2 =
      (![1, 2, 3] : Fin 3 → ℝ) 0 + (![1, 2, 3] : Fin 3 → ℝ) 1 +
        (![1, 2, 3] : Fin 3 → ℝ) 2 := by
  have hc := rating_change_eq (1/2) 1 one_ne_zero ![1, 2, 3] ![4, -2, -2]
  exact ⟨hc, play_zero_sum (1/2) 1 ![1, 2, 3] ![4, -2, -2] (by norm_num) (by norm_num)
    (by norm_num) (by decide) _ hc⟩

/-- C2: in the spec's concrete scenario (players A, B, C at rating 0, one Play
with `game_count = 1`, scores `(+4, -2, -2)`, evaluated with `α = 0.1`) the
code produces internal rating `A = 4·(1 - exp(-0.1)) ≈ 0.380645`, which is NOT
within `1e-4` of the documented value `0.4` (the crate's own doc-test asserts
`0.4 ± 1e-4` and is marked `TODO: fix this not working!`). -/
theorem play_scenario_code_value :
    (∃ ev, evaluateH trivLin (1/10) histC2 = Except.ok ev ∧
        lookupR ev.ratings "A" = some (4 - 4 * Real.exp (-(1/10)))) ∧
      ¬ |(4 - 4 * Real.exp (-(1/10))) - 0.4| < 1e-4 := by
  constructor
  · refine ⟨⟨(10 : ℝ)⁻¹,
      [("A", -(4 * Real.exp (-(10 : ℝ)⁻¹)) + 4), ("B", 2 * Real.exp (-(10 : ℝ)⁻¹) + -2),
        ("C", 2 * Real.exp (-(10 : ℝ)⁻¹) + -2)], some 0⟩, ?_, ?_⟩
    · simp [evaluateH, List.foldlM, Evaluation.changeE, Evaluation.new, histC2, insertR,
        lookupR, liftE, dmax, Change.date, rating_change_eq, setR, Bind.bind, Except.bind,
        update3, avg3, pure, Except.pure]
    · simp only [lookupR, if_pos rfl, Option.some.injEq]
      norm_num
      ring
  · have hb := @Real.exp_bound (-(1/10)) (by rw [abs_of_nonpos] <;> norm_num) 3 (by norm_num)
    have hs : ∑ m ∈ Finset.range 3, (-(1/10) : ℝ) ^ m / m.factorial = 181/200 := by
      simp [Finset.sum_range_succ, Nat.factorial]
      norm_num
    rw [hs, show |(-(1/10) : ℝ)| = 1/10 from by rw [abs_of_nonpos] <;> norm_num] at hb
    norm_num [Nat.factorial] at hb
    have hlow := (abs_le.mp hb).1
    intro h
    rw [abs_lt] at h
    norm_num at h hlow
    linarith [h.1]

/-- C6: a Symmetric event with exactly two participants fails with
`DegenerateGroupSize` (the `assert!(scores.len() >= 3)`, checked before
anything else); with three or more participants, all rated, the fold
succeeds. -/
theorem symmetric_guard (lin : LinAlg) (ev : Evaluation) (s : Symmetric) :
    (s.scores.length = 2 →
      Evaluation.changeE lin ev (.Symmetric s) = Except.error Err.DegenerateGroupSize) ∧
    (3 ≤ s.scores.length →
      (∀ q ∈ s.scores, (lookupR ev.ratings q.1).isSome) →
      ∃ ev', Evaluation.changeE lin ev (.Symmetric s) = Except.ok ev') := by
  constructor
  · intro hlen
    have h2 : s.scores.length < 3 := by omega
    simp [Evaluation.changeE, applySymmetric, h2, Bind.bind, Except.bind]
  · intro hlen hnames
    obtain ⟨x, hx⟩ := applySymmetric_ok ev s hlen hnames
    exact ⟨_, changeE_symmetric_ok lin ev x s hx⟩

/-- C6 witness: `DegenerateGroupSize` at a concrete two-player Symmetric event,
success at a concrete three-player one. -/
theorem symmetric_guard_witness :
    Evaluation.changeE trivLin ⟨1, [("A", 0), ("B", 0), ("C", 0)], none⟩
        (.Symmetric ⟨0, [("A", 1), ("B", -1)], 1⟩) =
      Except.error Err.DegenerateGroupSize ∧
    (Evaluation.changeE trivLin ⟨1, [("A", 0), ("B", 0), ("C", 0)], none⟩
        (.Symmetric ⟨0, [("A", 2), ("B", -1), ("C", -1)], 1⟩)).isOk = true := by
  constructor
  · exact (symmetric_guard trivLin ⟨1, [("A", 0), ("B", 0), ("C", 0)], none⟩
      ⟨0, [("A", 1), ("B", -1)], 1⟩).1 rfl
  · obtain ⟨ev', hev'⟩ := (symmetric_guard trivLin ⟨1, [("A", 0), ("B", 0), ("C", 0)], none⟩
      ⟨0, [("A", 2), ("B", -1), ("C", -1)], 1⟩).2 (by norm_num)
      (by intro q hq; fin_cases hq <;> rfl)
    rw [hev']
    rfl

/-- C7 (counterexample): a Play with `game_count = 0` is not rejected with the
spec's `InvalidInput` pre-validation error; the failure is the post-formula
finiteness assertion. -/
theorem play_zero_games_not_prevalidated :
    Evaluation.changeE trivLin ⟨1/10, [("A", 0), ("B", 0), ("C", 0)], none⟩
        (.Play ⟨0, 0, ![⟨"A", 4⟩, ⟨"B", -2⟩, ⟨"C", -2⟩]⟩) =
      Except.error Err.AssertNotFinite ∧
    Err.AssertNotFinite ≠ Err.InvalidInput := by
  constructor
  · simp [Evaluation.changeE, liftE, lookupR, rating_change_zero, Bind.bind, Except.bind]
  · decide

/-- C7 (amended): folding a Play with `game_count = 0` (and its three players
rated) fails, but only via the finiteness assertion after the update formula
has consumed the non-finite per-game score of the division by zero (`fdiv`
returns the non-finite marker for every score). -/
theorem play_zero_games_assert (lin : LinAlg) (ev : Evaluation) (p : Play)
    (h0 : p.game_count = 0)
    (h1 : (lookupR ev.ratings (p.outcomes 0).player).isSome)
    (h2 : (lookupR ev.ratings (p.outcomes 1).player).isSome)
    (h3 : (lookupR ev.ratings (p.outcomes 2).player).isSome) :
    Evaluation.changeE lin ev (.Play p) = Except.error Err.AssertNotFinite ∧
      ∀ z : ℤ, fdiv z p.game_count = none := by
  obtain ⟨r0, hr0⟩ := Option.isSome_iff_exists.mp h1
  obtain ⟨r1, hr1⟩ := Option.isSome_iff_exists.mp h2
  obtain ⟨r2, hr2⟩ := Option.isSome_iff_exists.mp h3
  refine ⟨?_, fun z => by simp [fdiv, h0]⟩
  simp [Evaluation.changeE, liftE, hr0, hr1, hr2, h0, rating_change_zero,
    Bind.bind, Except.bind]

/-- C7 witness: the amended statement at a concrete zero-game Play. -/
theorem play_zero_games_assert_witness :
    Evaluation.changeE trivLin ⟨1/2, [("X", 1), ("Y", 2), ("Z", 3)], none⟩
        (.Play ⟨0, 7, ![⟨"X", 1⟩, ⟨"Y", 0⟩, ⟨"Z", -1⟩]⟩) =
      Except.error Err.AssertNotFinite :=
  (play_zero_games_assert trivLin ⟨1/2, [("X", 1), ("Y", 2), ("Z", 3)], none⟩
    ⟨0, 7, ![⟨"X", 1⟩, ⟨"Y", 0⟩, ⟨"Z", -1⟩]⟩ rfl rfl rfl rfl).1

/-- C10: a successful Play fold touches only the ratings entries of the three
players named in its outcomes — every other name keeps its rating, no entry is
added or removed (key set preserved for every name), and `α` is unchanged. -/
theorem play_frame (lin : LinAlg) (ev : Evaluation) (p : Play) (ev' : Evaluation)
    (h : Evaluation.changeE lin ev (.Play p) = Except.ok ev') :
    ev'.α = ev.α ∧
    (∀ nm : String, nm ≠ (p.outcomes 0).player → nm ≠ (p.outcomes 1).player →
      nm ≠ (p.outcomes 2).player → lookupR ev'.ratings nm = lookupR ev.ratings nm) ∧
    (∀ nm : String, (lookupR ev'.ratings nm).isSome = (lookupR ev.ratings nm).isSome) := by
  cases hr0 : lookupR ev.ratings (p.outcomes 0).player with
  | none => simp [Evaluation.changeE, liftE, hr0, Bind.bind, Except.bind] at h
  | some r0 =>
  cases hr1 : lookupR ev.ratings (p.outcomes 1).player with
  | none => simp [Evaluation.changeE, liftE, hr0, hr1, Bind.bind, Except.bind] at h
  | some r1 =>
  cases hr2 : lookupR ev.ratings (p.outcomes 2).player with
  | none => simp [Evaluation.changeE, liftE, hr0, hr1, hr2, Bind.bind, Except.bind] at h
  | some r2 =>
  cases hrc : rating_change ev.α p.game_count ![r0, r1, r2] fun i => (p.outcomes i).score with
  | error e =>
    simp [Evaluation.changeE, liftE, hr0, hr1, hr2, hrc, Bind.bind, Except.bind] at h
  | ok nr =>
  simp [Evaluation.changeE, liftE, hr0, hr1, hr2, hrc, Bind.bind, Except.bind,
    dmax, Change.date] at h
  subst h
  refine ⟨rfl, ?_, ?_⟩
  · intro nm h0 h1 h2
    simp only [lookupR_setR_ne _ _ _ _ h2, lookupR_setR_ne _ _ _ _ h1,
      lookupR_setR_ne _ _ _ _ h0]
  · intro nm
    simp only [isSome_lookupR_setR]

/-- C10 witness: the frame property at a concrete Play among A, B, C with a
bystander D. -/
theorem play_frame_witness :
    (1 : ℝ) = (1 : ℝ) ∧
    lookupR [("A", -(4 * Real.exp (-1)) + 4), ("B", 2 * Real.exp (-1) + -2),
        ("C", 2 * Real.exp (-1) + -2), ("D", (7 : ℝ))] "D" =
      lookupR [("A", (0 : ℝ)), ("B", 0), ("C", 0), ("D", 7)] "D" ∧
    (lookupR [("A", -(4 * Real.exp (-1)) + 4), ("B", 2 * Real.exp (-1) + -2),
        ("C", 2 * Real.exp (-1) + -2), ("D", (7 : ℝ))] "A").isSome =
      (lookupR [("A", (0 : ℝ)), ("B", 0), ("C", 0), ("D", 7)] "A").isSome := by
  have h : Evaluation.changeE trivLin ⟨1, [("A", 0), ("B", 0), ("C", 0), ("D", 7)], none⟩
      (.Play ⟨1, 3, ![⟨"A", 4⟩, ⟨"B", -2⟩, ⟨"C", -2⟩]⟩) =
      Except.ok ⟨1, [("A", -(4 * Real.exp (-1)) + 4), ("B", 2 * Real.exp (-1) + -2),
        ("C", 2 * Real.exp (-1) + -2), ("D", 7)], some 3⟩ := by
    simp [Evaluation.changeE, liftE, lookupR, rating_change_eq, setR, dmax, Change.date,
      Bind.bind, Except.bind, update3, avg3]
  have hf := play_frame trivLin _ _ _ h
  exact ⟨hf.1, hf.2.1 "D" (by decide) (by decide) (by decide), hf.2.2 "A"⟩

/-- C5 (counterexample): with 4 participants and `game_count = 1`, the code's
synthesized matrix has diagonal entry `(3,3) = 0` — participant 3 appears in
no processed window — while the spec's accumulation over every window position
gives `-6`. -/
theorem circular_matrix_not_all_windows :
    circularMatrix 4 1 3 3 = 0 ∧ specCircularMatrix 4 1 3 3 = -6 ∧
      circularMatrix 4 1 3 3 ≠ specCircularMatrix 4 1 3 3 := by
  have h1 : circularMatrix 4 1 3 3 = 0 := by
    norm_num [circularMatrix, applyWindow, bumpAdd, List.range_succ]
  have h2 : specCircularMatrix 4 1 3 3 = -6 := by
    norm_num [specCircularMatrix, windowContrib, Finset.sum_range_succ]
  exact ⟨h1, h2, by rw [h1, h2]; norm_num⟩

/-- C5 (amended): the synthesized Circular matrix accumulates, for each round
`i < game_count`, only the single width-3 cyclically-wrapping window starting
at position `i` (not every window position per round), and the resulting
matrix is fed to the same `update_generic` steady-state/matrix-exponential
formula as the generalized diffusion model. -/
theorem circular_matrix_per_round :
    (∀ n g a b : ℕ,
      circularMatrix n g a b = ∑ i ∈ Finset.range g, windowContrib n i a b) ∧
    (∀ (lin : LinAlg) (ev : Evaluation) (c : Circular),
      (∀ o ∈ c.outcomes, (lookupR ev.ratings o.player).isSome) →
      ∃ init, liftLookups ev.ratings (c.outcomes.map Outcome.player) = Except.ok init ∧
        applyCircular lin ev c =
          match update_generic lin ev.α c.outcomes.length
              (circularMatrix c.outcomes.length c.game_count)
              (fun k => init.getD k 0)
              (fun k => ((c.outcomes.getD k ⟨"", 0⟩).score : ℤ)) epsTol with
          | none => Except.error Err.SingularSystem
          | some nr =>
            Except.ok
              { ev with
                ratings := writeRatingsFrom ev.ratings (c.outcomes.map Outcome.player) nr 0 }) := by
  constructor
  · exact circularMatrix_apply
  · intro lin ev c hp
    obtain ⟨init, hinit⟩ := liftLookups_ok ev.ratings (c.outcomes.map Outcome.player) (by
      intro nm hnm
      obtain ⟨o, ho, rfl⟩ := List.mem_map.mp hnm
      exact hp o ho)
    refine ⟨init, hinit, ?_⟩
    unfold applyCircular
    simp only [hinit, except_bind_ok]

/-- C5 witness: the update route at a concrete four-player Circular event. -/
theorem circular_matrix_per_round_witness :
    liftLookups evCirc.ratings (circEx.outcomes.map Outcome.player) =
        Except.ok [(0 : ℝ), 0, 0, 0] ∧
      applyCircular trivLin evCirc circEx =
        match update_generic trivLin evCirc.α circEx.outcomes.length
            (circularMatrix circEx.outcomes.length circEx.game_count)
            (fun k => List.getD [(0 : ℝ), 0, 0, 0] k 0)
            (fun k => ((circEx.outcomes.getD k ⟨"", 0⟩).score : ℤ)) epsTol with
        | none => Except.error Err.SingularSystem
        | some nr =>
          Except.ok
            { evCirc with
              ratings := writeRatingsFrom evCirc.ratings (circEx.outcomes.map Outcome.player) nr 0 } := by
  obtain ⟨init, h1, h2⟩ := circular_matrix_per_round.2 trivLin evCirc circEx (by
    intro o ho
    fin_cases ho <;> rfl)
  have h0 : liftLookups evCirc.ratings (circEx.outcomes.map Outcome.player) =
      Except.ok [(0 : ℝ), 0, 0, 0] := rfl
  rw [h1] at h0
  have hinit := Except.ok.inj h0
  subst hinit
  exact ⟨h1, h2⟩

end

end Ultira
